import Mathlib

/-!
Verification of the callback-based color-grid application.

The application consists of a `Matrix` container component owning the shared
`selectedColor` state, a `ColorSelector` picker rendering a fixed palette of
nine swatches, and a grid of `Cell` leaf components each owning a local
`color` state.  The repository contains two variants of `Cell`:

* the prop-forwarded variant (`src/Cell.js`): `handleClick` reads
  `this.props.selectedColor`, a value prop that `Matrix.genRow` re-passes from
  `this.state.selectedColor` on every re-render;
* the accessor-callback variant (second `Cell.js` revision): `handleClick`
  calls `this.props.getSelectedColor()`, an accessor that reads the live
  `Matrix` state at click time.

We embed each variant as an explicit state machine.  A component's React
props and local state become record fields; `setState` followed by the
synchronous re-render it triggers becomes a pure state-transition function.
React's reconciliation by `key` (which preserves a mounted component's local
state across parent re-renders and never re-runs its constructor) is embedded
by keeping each cell's `color` field untouched on re-render transitions.
-/

namespace Lab

/-- ColorToken: an opaque hex color string such as "#FFF"; the code performs
no validation, any string is carried verbatim. -/
abbrev ColorToken := String

/-- Element-wise update of a list at one index; out-of-range indices leave the
list unchanged.  Used to embed a click event that re-renders a single cell. -/
def modifyAt {α : Type} (f : α → α) : Nat → List α → List α
  | _, [] => []
  | 0, a :: as => f a :: as
  | n + 1, a :: as => a :: modifyAt f n as

/-- A grid entry lookup: the token of the 2D values array at (row, col). -/
def gridEntry (values : List (List ColorToken)) (r c : Nat) : Option ColorToken :=
  (values[r]?).bind (fun row => row[c]?)

/-! ## Prop-forwarded variant (src/Cell.js plus the Matrix of the README) -/

/-- One mounted Cell of the prop-forwarded variant: its local React state
`color` (seeded in the constructor from `props.color`) together with the props
it last received from `Matrix.genRow`: `color={val}` and
`selectedColor={this.state.selectedColor}`. -/
structure PropCell where
  color : ColorToken
  propColor : ColorToken
  propSelectedColor : ColorToken
deriving Repr, DecidableEq

/-- The mounted application state for the prop-forwarded variant: `Matrix`'s
own state `selectedColor` plus the per-cell mounted `Cell` instances in
row-major order. -/
structure PropMatrix where
  selectedColor : ColorToken
  cells : List (List PropCell)
deriving Repr, DecidableEq

/-- Mounting `Matrix` on a values array: `Matrix.constructor` sets
`state.selectedColor = '#FFF'`; the initial render runs `genMatrix`/`genRow`,
and each `Cell` constructor seeds `this.state.color` from `props.color` (the
grid entry at its position). -/
def PropMatrix.mount (values : List (List ColorToken)) : PropMatrix :=
  { selectedColor := "#FFF"
    cells := values.map (fun row => row.map (fun val =>
      { color := val, propColor := val, propSelectedColor := "#FFF" })) }

/-- `Matrix.setSelectedColor` (README): `setState({selectedColor: newColor})`,
followed by the re-render it triggers: `genRow` re-passes
`selectedColor={this.state.selectedColor}` to every cell; reconciliation by
`key` preserves each cell's local `state.color`. -/
def PropMatrix.setSelectedColor (m : PropMatrix) (newColor : ColorToken) : PropMatrix :=
  { selectedColor := newColor
    cells := m.cells.map (fun row => row.map (fun cell =>
      { cell with propSelectedColor := newColor })) }

/-- `Cell.handleClick` of the prop-forwarded variant, at grid position
(r, c): `this.setState({color: this.props.selectedColor})` — only that cell's
state changes, and it changes to the `selectedColor` prop the cell currently
holds. -/
def PropMatrix.clickCell (m : PropMatrix) (r c : Nat) : PropMatrix :=
  { m with cells := modifyAt (modifyAt (fun cell =>
      { cell with color := cell.propSelectedColor }) c) r m.cells }

/-- `Matrix` re-rendering after its `values` prop changed upstream: `genRow`
passes the new grid entry as `props.color` and the live selection as
`props.selectedColor`; React reconciles existing cells by `key`, so a cell
present at the same position keeps its local `state.color` (its constructor
does not re-run), while positions only present in the new array mount fresh
cells and positions no longer present unmount. -/
def reconcileRow (sel : ColorToken) : List PropCell → List ColorToken → List PropCell
  | _, [] => []
  | [], v :: vs => { color := v, propColor := v, propSelectedColor := sel } :: reconcileRow sel [] vs
  | cell :: cs, v :: vs =>
      { color := cell.color, propColor := v, propSelectedColor := sel } :: reconcileRow sel cs vs

/-- Row-level reconciliation of the whole grid against a new values array;
see `reconcileRow`. -/
def reconcileRows (sel : ColorToken) : List (List PropCell) → List (List ColorToken) → List (List PropCell)
  | _, [] => []
  | [], vs :: vss => vs.map (fun v => { color := v, propColor := v, propSelectedColor := sel }) :: reconcileRows sel [] vss
  | row :: rows, vs :: vss => reconcileRow sel row vs :: reconcileRows sel rows vss

/-- The full re-render of `Matrix` with an upstream-mutated values array. -/
def PropMatrix.rerenderValues (m : PropMatrix) (newValues : List (List ColorToken)) : PropMatrix :=
  { m with cells := reconcileRows m.selectedColor m.cells newValues }

/-- The committed local color of the cell at (r, c), if that cell exists. -/
def PropMatrix.colorAt (m : PropMatrix) (r c : Nat) : Option ColorToken :=
  (m.cells[r]?).bind (fun row => (row[c]?).map (fun cell => cell.color))

/-! ## ColorSelector (README) -/

/-- The hard-coded palette literal inside `ColorSelector.makeColorSwatches`. -/
def swatchColors : List ColorToken :=
  ["#F00", "#F80", "#FF0", "#0F0", "#00F", "#508", "#90D", "#FFF", "#000"]

/-- One rendered swatch `div`: its `key`, its `backgroundColor` style, and the
token its `onClick` callback passes to `this.props.setSelectedColor`. -/
structure Swatch where
  key : Nat
  backgroundColor : ColorToken
  clickToken : ColorToken
deriving Repr, DecidableEq

/-- `ColorSelector.makeColorSwatches`: maps the palette literal to swatch
`div`s; for each entry it builds `let callback = () =>
this.props.setSelectedColor(str)`, a fresh closure over that entry's own
`str` (the `let` is inside the `map` body, so no loop variable is shared). -/
def makeColorSwatches : List Swatch :=
  swatchColors.enum.map (fun p => { key := p.1, backgroundColor := p.2, clickToken := p.2 })

/-- Clicking the swatch at index i: its bound callback fires, which calls
`Matrix.setSelectedColor` with the token the closure captured.  Indices with
no rendered swatch have nothing to click and leave the state unchanged. -/
def PropMatrix.clickSwatch (m : PropMatrix) (i : Nat) : PropMatrix :=
  match makeColorSwatches[i]? with
  | some sw => m.setSelectedColor sw.clickToken
  | none => m

/-! ## Accessor-callback variant (second Cell.js revision) -/

/-- The mounted application state for the accessor-callback variant. Each
cell's props are the seed token (used only by the constructor) and the
`getSelectedColor` function, which reads the live `Matrix` state; so the only
per-cell data is the local `state.color`, kept in row-major order. -/
structure AccMatrix where
  selectedColor : ColorToken
  cells : List (List ColorToken)
deriving Repr, DecidableEq

/-- Mounting the accessor-variant application: `Matrix.constructor` sets
`state.selectedColor = '#FFF'` and each `Cell` constructor seeds
`this.state.color = this.props.color`. -/
def AccMatrix.mount (values : List (List ColorToken)) : AccMatrix :=
  { selectedColor := "#FFF", cells := values }

/-- Modelled from the spec: the `getSelectedColor` accessor of `Matrix` is not
present under src/ (only its caller, the accessor-variant `Cell.handleClick`,
is); per the spec it "returns the current SelectionState value at call
time". -/
def AccMatrix.getSelectedColor (m : AccMatrix) : ColorToken :=
  m.selectedColor

/-- `Matrix.setSelectedColor` in the accessor variant: overwrites
`state.selectedColor`; cells hold no copy of the selection, so no per-cell
data changes. -/
def AccMatrix.setSelectedColor (m : AccMatrix) (newColor : ColorToken) : AccMatrix :=
  { m with selectedColor := newColor }

/-- `Cell.handleClick` of the accessor variant at (r, c): `const newColor =
this.props.getSelectedColor(); this.setState({color: newColor})`. -/
def AccMatrix.clickCell (m : AccMatrix) (r c : Nat) : AccMatrix :=
  { m with cells := modifyAt (modifyAt (fun _ => m.getSelectedColor) c) r m.cells }

/-- The committed local color of the accessor-variant cell at (r, c). -/
def AccMatrix.colorAt (m : AccMatrix) (r c : Nat) : Option ColorToken :=
  (m.cells[r]?).bind (fun row => row[c]?)

/-! ## Grid projection (Matrix.genRow / Matrix.genMatrix, README) -/

/-- A `Cell` element as instantiated by `Matrix.genRow`: its identity `key`
and the two props `color={val}` and
`selectedColor={this.state.selectedColor}`. -/
structure CellElem where
  key : Nat
  color : ColorToken
  selectedColor : ColorToken
deriving Repr, DecidableEq

/-- A row `div` element as instantiated by `Matrix.genMatrix`: its identity
`key` and the cell elements `genRow` produced for it. -/
structure RowElem where
  key : Nat
  rowCells : List CellElem
deriving Repr, DecidableEq

/-- `Matrix.genRow`: `vals.map((val, idx) => <Cell key={idx} color={val}
selectedColor={this.state.selectedColor} />)`. -/
def genRow (sel : ColorToken) (vals : List ColorToken) : List CellElem :=
  vals.enum.map (fun p => { key := p.1, color := p.2, selectedColor := sel })

/-- `Matrix.genMatrix`: `this.props.values.map((rowVals, idx) => <div
key={idx} className="row">{this.genRow(rowVals)}</div>)`. -/
def genMatrix (sel : ColorToken) (values : List (List ColorToken)) : List RowElem :=
  values.enum.map (fun p => { key := p.1, rowCells := genRow sel p.2 })

/-! ## User-event sequences -/

/-- One user event: a click on one of the nine rendered swatches, or a click
on the cell at a grid position. -/
inductive Event where
  | pickerClick (i : Fin 9)
  | cellClick (r c : Nat)
deriving Repr, DecidableEq

/-- Dispatching one user event on the mounted application. -/
def stepEvent (m : PropMatrix) : Event → PropMatrix
  | .pickerClick i => m.clickSwatch i
  | .cellClick r c => m.clickCell r c

/-- Running a sequence of user events in order. -/
def runEvents (m : PropMatrix) : List Event → PropMatrix
  | [] => m
  | e :: es => runEvents (stepEvent m e) es

/-- The states of the prop-forwarded application reachable from a mount by
the transitions the code provides. -/
inductive Reachable : PropMatrix → Prop
  | mount (values : List (List ColorToken)) : Reachable (PropMatrix.mount values)
  | set (m : PropMatrix) (t : ColorToken) : Reachable m → Reachable (m.setSelectedColor t)
  | click (m : PropMatrix) (r c : Nat) : Reachable m → Reachable (m.clickCell r c)
  | swatch (m : PropMatrix) (i : Nat) : Reachable m → Reachable (m.clickSwatch i)
  | rerender (m : PropMatrix) (vs : List (List ColorToken)) :
      Reachable m → Reachable (m.rerenderValues vs)

/-- The render-synchronisation invariant of the prop-forwarded variant: every
mounted cell's `selectedColor` prop equals `Matrix`'s live
`state.selectedColor` (because each `Matrix` render passes the live value and
every state update triggers a render). -/
def PropMatrix.Synced (m : PropMatrix) : Prop :=
  ∀ row ∈ m.cells, ∀ cell ∈ row, cell.propSelectedColor = m.selectedColor

instance (m : PropMatrix) : Decidable m.Synced :=
  inferInstanceAs (Decidable (∀ row ∈ m.cells, ∀ cell ∈ row, _ = _))

/-! ## Basic lemmas about `modifyAt` -/

theorem modifyAt_getElem?_self {α : Type} (f : α → α) (n : Nat) (l : List α) :
    (modifyAt f n l)[n]? = (l[n]?).map f := by
  induction l generalizing n with
  | nil => simp [modifyAt]
  | cons a as ih =>
    cases n with
    | zero => simp [modifyAt]
    | succ n => simpa [modifyAt] using ih n

theorem modifyAt_getElem?_ne {α : Type} (f : α → α) {n k : Nat} (l : List α) (h : k ≠ n) :
    (modifyAt f n l)[k]? = l[k]? := by
  induction l generalizing n k with
  | nil => simp [modifyAt]
  | cons a as ih =>
    cases n with
    | zero =>
      cases k with
      | zero => exact absurd rfl h
      | succ k => simp [modifyAt]
    | succ n =>
      cases k with
      | zero => simp [modifyAt]
      | succ k => simpa [modifyAt] using ih (fun hk => h (by omega))

theorem modifyAt_modifyAt {α : Type} {f : α → α} (hf : ∀ a, f (f a) = f a) (n : Nat)
    (l : List α) : modifyAt f n (modifyAt f n l) = modifyAt f n l := by
  induction l generalizing n with
  | nil => simp [modifyAt]
  | cons a as ih =>
    cases n with
    | zero => simp [modifyAt, hf]
    | succ n => simpa [modifyAt] using ih n

theorem mem_modifyAt {α : Type} {f : α → α} {n : Nat} {l : List α} {a : α}
    (h : a ∈ modifyAt f n l) : a ∈ l ∨ ∃ b ∈ l, a = f b := by
  induction l generalizing n with
  | nil => simp [modifyAt] at h
  | cons x xs ih =>
    cases n with
    | zero =>
      rcases List.mem_cons.mp h with h | h
      · exact Or.inr ⟨x, List.mem_cons_self x xs, h⟩
      · exact Or.inl (List.mem_cons_of_mem x h)
    | succ n =>
      rcases List.mem_cons.mp h with h | h
      · exact Or.inl (h ▸ List.mem_cons_self x xs)
      · rcases ih h with h | ⟨b, hb, hab⟩
        · exact Or.inl (List.mem_cons_of_mem x h)
        · exact Or.inr ⟨b, List.mem_cons_of_mem x hb, hab⟩

/-! ## The render-synchronisation invariant -/

theorem mount_synced (values : List (List ColorToken)) : (PropMatrix.mount values).Synced := by
  intro row hrow cell hcell
  simp only [PropMatrix.mount, List.mem_map] at hrow
  obtain ⟨vals, -, rfl⟩ := hrow
  simp only [List.mem_map] at hcell
  obtain ⟨v, -, rfl⟩ := hcell
  rfl

theorem setSelectedColor_synced (m : PropMatrix) (t : ColorToken) :
    (m.setSelectedColor t).Synced := by
  intro row hrow cell hcell
  simp only [PropMatrix.setSelectedColor, List.mem_map] at hrow
  obtain ⟨row₀, -, rfl⟩ := hrow
  simp only [List.mem_map] at hcell
  obtain ⟨cell₀, -, rfl⟩ := hcell
  rfl

theorem clickCell_synced (m : PropMatrix) (r c : Nat) (hm : m.Synced) :
    (m.clickCell r c).Synced := by
  intro row hrow cell hcell
  have hsel : (m.clickCell r c).selectedColor = m.selectedColor := rfl
  rw [hsel]
  rcases mem_modifyAt hrow with hrow | ⟨row₀, hrow₀, rfl⟩
  · exact hm row hrow cell hcell
  · rcases mem_modifyAt hcell with hcell | ⟨cell₀, hcell₀, rfl⟩
    · exact hm row₀ hrow₀ cell hcell
    · exact hm row₀ hrow₀ cell₀ hcell₀

theorem clickSwatch_synced (m : PropMatrix) (i : Nat) (hm : m.Synced) :
    (m.clickSwatch i).Synced := by
  unfold PropMatrix.clickSwatch
  cases makeColorSwatches[i]? with
  | none => exact hm
  | some sw => exact setSelectedColor_synced m sw.clickToken

theorem mem_reconcileRow {sel : ColorToken} {old : List PropCell} {vs : List ColorToken}
    {cell : PropCell} (h : cell ∈ reconcileRow sel old vs) : cell.propSelectedColor = sel := by
  induction vs generalizing old with
  | nil => cases old <;> simp [reconcileRow] at h
  | cons v vs ih =>
    cases old with
    | nil =>
      rcases List.mem_cons.mp h with h | h
      · subst h; rfl
      · exact ih h
    | cons c cs =>
      rcases List.mem_cons.mp h with h | h
      · subst h; rfl
      · exact ih h

theorem mem_reconcileRows {sel : ColorToken} {rows : List (List PropCell)}
    {vss : List (List ColorToken)} {row : List PropCell} {cell : PropCell}
    (hrow : row ∈ reconcileRows sel rows vss) (hcell : cell ∈ row) :
    cell.propSelectedColor = sel := by
  induction vss generalizing rows with
  | nil => cases rows <;> simp [reconcileRows] at hrow
  | cons vs vss ih =>
    cases rows with
    | nil =>
      rcases List.mem_cons.mp hrow with h | h
      · subst h
        simp only [List.mem_map] at hcell
        obtain ⟨v, -, rfl⟩ := hcell
        rfl
      · exact ih h
    | cons r rs =>
      rcases List.mem_cons.mp hrow with h | h
      · exact mem_reconcileRow (h ▸ hcell)
      · exact ih h

theorem rerenderValues_synced (m : PropMatrix) (vs : List (List ColorToken)) :
    (m.rerenderValues vs).Synced := by
  intro row hrow cell hcell
  exact mem_reconcileRows hrow hcell

theorem reachable_synced {m : PropMatrix} (h : Reachable m) : m.Synced := by
  induction h with
  | mount values => exact mount_synced values
  | set m t _ _ => exact setSelectedColor_synced m t
  | click m r c _ ih => exact clickCell_synced m r c ih
  | swatch m i _ ih => exact clickSwatch_synced m i ih
  | rerender m vs _ _ => exact rerenderValues_synced m vs

/-! ## Computation lemmas for `colorAt` -/

theorem colorAt_mount (values : List (List ColorToken)) (r c : Nat) :
    (PropMatrix.mount values).colorAt r c = gridEntry values r c := by
  simp only [PropMatrix.colorAt, PropMatrix.mount, gridEntry, List.getElem?_map]
  cases values[r]? with
  | none => rfl
  | some row =>
    simp only [Option.map_some', Option.some_bind, List.getElem?_map]
    cases row[c]? <;> rfl

theorem colorAt_setSelectedColor (m : PropMatrix) (t : ColorToken) (r c : Nat) :
    (m.setSelectedColor t).colorAt r c = m.colorAt r c := by
  simp only [PropMatrix.colorAt, PropMatrix.setSelectedColor, List.getElem?_map]
  cases m.cells[r]? with
  | none => rfl
  | some row =>
    simp only [Option.map_some', Option.some_bind, List.getElem?_map]
    cases row[c]? <;> rfl

theorem colorAt_clickCell_self (m : PropMatrix) (r c : Nat) :
    (m.clickCell r c).colorAt r c =
      (m.cells[r]?).bind (fun row => (row[c]?).map (fun cell => cell.propSelectedColor)) := by
  simp only [PropMatrix.colorAt, PropMatrix.clickCell, modifyAt_getElem?_self]
  cases m.cells[r]? with
  | none => rfl
  | some row =>
    simp only [Option.map_some', Option.some_bind, modifyAt_getElem?_self]
    cases row[c]? <;> rfl

theorem colorAt_clickCell_ne (m : PropMatrix) (r c r' c' : Nat) (h : (r', c') ≠ (r, c)) :
    (m.clickCell r c).colorAt r' c' = m.colorAt r' c' := by
  simp only [PropMatrix.colorAt, PropMatrix.clickCell]
  by_cases hr : r' = r
  · subst hr
    have hc : c' ≠ c := fun hc => h (by rw [hc])
    simp only [modifyAt_getElem?_self]
    cases m.cells[r']? with
    | none => rfl
    | some row => simp only [Option.map_some', Option.some_bind, modifyAt_getElem?_ne _ row hc]
  · rw [modifyAt_getElem?_ne _ m.cells hr]

theorem synced_propSelectedColor {m : PropMatrix} (hm : m.Synced) {r c : Nat}
    {row : List PropCell} {cell : PropCell}
    (hr : m.cells[r]? = some row) (hc : row[c]? = some cell) :
    cell.propSelectedColor = m.selectedColor :=
  hm row (List.getElem?_mem hr) cell (List.getElem?_mem hc)

theorem clickSwatch_eq_set (m : PropMatrix) (i : Nat) (h : i < swatchColors.length) :
    m.clickSwatch i = m.setSelectedColor (swatchColors.get ⟨i, h⟩) := by
  have h9 : i < 9 := by simpa [swatchColors] using h
  interval_cases i <;> rfl

/-! ## Computation lemmas for the accessor variant -/

theorem acc_colorAt_mount (values : List (List ColorToken)) (r c : Nat) :
    (AccMatrix.mount values).colorAt r c = gridEntry values r c := rfl

theorem acc_colorAt_setSelectedColor (m : AccMatrix) (t : ColorToken) (r c : Nat) :
    (m.setSelectedColor t).colorAt r c = m.colorAt r c := rfl

theorem acc_colorAt_clickCell_self (m : AccMatrix) (r c : Nat) :
    (m.clickCell r c).colorAt r c =
      (m.cells[r]?).bind (fun row => (row[c]?).map (fun _ => m.selectedColor)) := by
  simp only [AccMatrix.colorAt, AccMatrix.clickCell, modifyAt_getElem?_self]
  cases m.cells[r]? with
  | none => rfl
  | some row =>
    simp only [Option.map_some', Option.some_bind, modifyAt_getElem?_self]
    cases row[c]? <;> rfl

theorem acc_colorAt_clickCell_ne (m : AccMatrix) (r c r' c' : Nat) (h : (r', c') ≠ (r, c)) :
    (m.clickCell r c).colorAt r' c' = m.colorAt r' c' := by
  simp only [AccMatrix.colorAt, AccMatrix.clickCell]
  by_cases hr : r' = r
  · subst hr
    have hc : c' ≠ c := fun hc => h (by rw [hc])
    simp only [modifyAt_getElem?_self]
    cases m.cells[r']? with
    | none => rfl
    | some row => simp only [Option.map_some', Option.some_bind, modifyAt_getElem?_ne _ row hc]
  · rw [modifyAt_getElem?_ne _ m.cells hr]

/-! ## Claim theorems -/

/-- C1: Late-binding of selection.  For any two tokens A and B, after the
sequence — set the selection to A, click Cell(0,0), set the selection to B,
click Cell(0,0) again — the final color of Cell(0,0) is B, not A; the first
click yields A.  This holds for both Cell variants in the source: the
prop-forwarded one (because every `setSelectedColor` re-render refreshes the
`selectedColor` prop of every mounted cell) and the accessor-callback one
(because `getSelectedColor()` reads the live state at click time). -/
theorem late_binding_selection (values : List (List ColorToken)) (A B v : ColorToken)
    (h : gridEntry values 0 0 = some v) :
    ((((PropMatrix.mount values).setSelectedColor A).clickCell 0 0).colorAt 0 0 = some A ∧
      (((((PropMatrix.mount values).setSelectedColor A).clickCell 0 0).setSelectedColor
          B).clickCell 0 0).colorAt 0 0 = some B) ∧
    ((((AccMatrix.mount values).setSelectedColor A).clickCell 0 0).colorAt 0 0 = some A ∧
      (((((AccMatrix.mount values).setSelectedColor A).clickCell 0 0).setSelectedColor
          B).clickCell 0 0).colorAt 0 0 = some B) := by
  cases values with
  | nil => simp [gridEntry] at h
  | cons row0 rest =>
    cases row0 with
    | nil => simp [gridEntry] at h
    | cons v0 cs =>
      refine ⟨⟨?_, ?_⟩, ⟨?_, ?_⟩⟩ <;>
        simp [PropMatrix.mount, PropMatrix.setSelectedColor, PropMatrix.clickCell,
          PropMatrix.colorAt, AccMatrix.mount, AccMatrix.setSelectedColor,
          AccMatrix.clickCell, AccMatrix.colorAt, AccMatrix.getSelectedColor, modifyAt]

/-- C1 witness: the late-binding sequence on a concrete 1×2 grid with
A = "#F00" and B = "#00F". -/
theorem late_binding_selection_witness :
    (((((PropMatrix.mount [["#FFF", "#000"]]).setSelectedColor "#F00").clickCell 0
            0).setSelectedColor "#00F").clickCell 0 0).colorAt 0 0 = some "#00F" :=
  (late_binding_selection [["#FFF", "#000"]] "#F00" "#00F" "#FFF" (by decide)).1.2

/-- C2: a Cell click applies the live selection with a per-cell frame.  In
any reachable state of the prop-forwarded application, clicking the cell at
(r, c) commits the current `selectedColor` to that cell's local state, and
the local state of every other position is unchanged. -/
theorem cell_click_applies_live_selection (m : PropMatrix) (r c : Nat) (col : ColorToken)
    (hreach : Reachable m) (hcell : m.colorAt r c = some col) :
    (m.clickCell r c).colorAt r c = some m.selectedColor ∧
      ∀ r' c' : Nat, (r', c') ≠ (r, c) → (m.clickCell r c).colorAt r' c' = m.colorAt r' c' := by
  refine ⟨?_, fun r' c' h => colorAt_clickCell_ne m r c r' c' h⟩
  rw [colorAt_clickCell_self]
  unfold PropMatrix.colorAt at hcell
  cases hr : m.cells[r]? with
  | none => rw [hr] at hcell; simp at hcell
  | some row =>
    rw [hr] at hcell
    simp only [Option.some_bind] at hcell
    cases hc : row[c]? with
    | none => rw [hc] at hcell; simp at hcell
    | some cell =>
      simp only [hr, Option.some_bind, hc, Option.map_some']
      exact congrArg some (synced_propSelectedColor (reachable_synced hreach) hr hc)

/-- C2 witness: clicking the only cell of a freshly mounted 1×1 grid. -/
theorem cell_click_applies_live_selection_witness :
    ((PropMatrix.mount [["#0F0"]]).clickCell 0 0).colorAt 0 0 =
      some (PropMatrix.mount [["#0F0"]]).selectedColor :=
  (cell_click_applies_live_selection (PropMatrix.mount [["#0F0"]]) 0 0 "#0F0"
    (Reachable.mount [["#0F0"]]) (by decide)).1

/-- The color a `reconcileRow` re-render gives a position present in both the
old row and the new values: the old cell's local state with the new entry as
`props.color`. -/
theorem reconcileRow_getElem? (sel : ColorToken) {old : List PropCell}
    {vs : List ColorToken} {c : Nat} {cell : PropCell} {v : ColorToken}
    (hold : old[c]? = some cell) (hv : vs[c]? = some v) :
    (reconcileRow sel old vs)[c]? =
      some { color := cell.color, propColor := v, propSelectedColor := sel } := by
  induction c generalizing old vs with
  | zero =>
    cases old with
    | nil => simp at hold
    | cons o os =>
      cases vs with
      | nil => simp at hv
      | cons w ws =>
        simp only [List.getElem?_cons_zero, Option.some_inj] at hold hv
        subst hold; subst hv; simp [reconcileRow]
  | succ c ih =>
    cases old with
    | nil => simp at hold
    | cons o os =>
      cases vs with
      | nil => simp at hv
      | cons w ws =>
        simp only [List.getElem?_cons_succ] at hold hv
        simpa [reconcileRow] using ih hold hv

/-- Row-level analogue of `reconcileRow_getElem?`. -/
theorem reconcileRows_getElem? (sel : ColorToken) {rows : List (List PropCell)}
    {vss : List (List ColorToken)} {r : Nat} {row : List PropCell} {vs : List ColorToken}
    (hrow : rows[r]? = some row) (hvs : vss[r]? = some vs) :
    (reconcileRows sel rows vss)[r]? = some (reconcileRow sel row vs) := by
  induction r generalizing rows vss with
  | zero =>
    cases rows with
    | nil => simp at hrow
    | cons x xs =>
      cases vss with
      | nil => simp at hvs
      | cons y ys =>
        simp only [List.getElem?_cons_zero, Option.some_inj] at hrow hvs
        subst hrow; subst hvs; simp [reconcileRows]
  | succ r ih =>
    cases rows with
    | nil => simp at hrow
    | cons x xs =>
      cases vss with
      | nil => simp at hvs
      | cons y ys =>
        simp only [List.getElem?_cons_succ] at hrow hvs
        simpa [reconcileRows] using ih hrow hvs

/-- C3: initial cell state and exactly-once initialization.  Immediately
after mounting, every cell's local color is the grid entry at its position;
and a later upstream change of the grid array — embedded as a re-render of
`Matrix` with a new values array — never overwrites the local color of a cell
that exists at the same position in both arrays: seeding from `props.color`
happens only in the constructor, which reconciliation does not re-run. -/
theorem cell_initial_seed_exactly_once (values newValues : List (List ColorToken))
    (m : PropMatrix) (r c : Nat) (col v : ColorToken)
    (hcol : m.colorAt r c = some col) (hnew : gridEntry newValues r c = some v) :
    (PropMatrix.mount values).colorAt r c = gridEntry values r c ∧
      (m.rerenderValues newValues).colorAt r c = some col := by
  refine ⟨colorAt_mount values r c, ?_⟩
  unfold PropMatrix.colorAt at hcol
  unfold gridEntry at hnew
  cases hr : m.cells[r]? with
  | none => rw [hr] at hcol; simp at hcol
  | some row =>
    rw [hr] at hcol
    simp only [Option.some_bind] at hcol
    cases hc : row[c]? with
    | none => rw [hc] at hcol; simp at hcol
    | some cell =>
      rw [hc] at hcol
      simp only [Option.map_some', Option.some_inj] at hcol
      cases hnr : newValues[r]? with
      | none => rw [hnr] at hnew; simp at hnew
      | some vs =>
        rw [hnr] at hnew
        simp only [Option.some_bind] at hnew
        unfold PropMatrix.colorAt PropMatrix.rerenderValues
        rw [reconcileRows_getElem? m.selectedColor hr hnr]
        simp only [Option.some_bind]
        rw [reconcileRow_getElem? m.selectedColor hc hnew]
        simp [hcol]

/-- C3 witness: a 1×1 grid whose upstream array is later swapped out; the
clicked-in color survives the re-render. -/
theorem cell_initial_seed_exactly_once_witness :
    (PropMatrix.mount [["#F00"]]).colorAt 0 0 = gridEntry [["#F00"]] 0 0 ∧
      ((PropMatrix.mount [["#F00"]]).rerenderValues [["#123"]]).colorAt 0 0 = some "#F00" :=
  cell_initial_seed_exactly_once [["#F00"]] [["#123"]] (PropMatrix.mount [["#F00"]]) 0 0
    "#F00" "#123" (by decide) (by decide)

/-- C4: per-entry closure correctness.  For every index i below the palette
length, the swatch rendered at index i carries exactly the palette entry at i
as its click token (its handler closed over its own `str`), and clicking it
sets the selection to exactly that token. -/
theorem swatch_click_sets_own_token (m : PropMatrix) (i : Nat) (h : i < swatchColors.length) :
    makeColorSwatches[i]? =
      some { key := i, backgroundColor := swatchColors.get ⟨i, h⟩,
             clickToken := swatchColors.get ⟨i, h⟩ } ∧
      (m.clickSwatch i).selectedColor = swatchColors.get ⟨i, h⟩ := by
  have h9 : i < 9 := by simpa [swatchColors] using h
  constructor
  · interval_cases i <;> rfl
  · rw [clickSwatch_eq_set m i h]; rfl

/-- C4 witness: clicking the swatch at index 4 selects "#00F". -/
theorem swatch_click_sets_own_token_witness :
    ((PropMatrix.mount [["#FFF"]]).clickSwatch 4).selectedColor = "#00F" :=
  (swatch_click_sets_own_token (PropMatrix.mount [["#FFF"]]) 4 (by decide)).2

/-- C5: Picker isolation.  Clicking the swatch at index i performs exactly
the single `setSelectedColor` call with that swatch's token — the click *is*
that one state update — so the selection becomes the swatch's token and no
cell's local `state.color` changes. -/
theorem picker_isolation (m : PropMatrix) (i : Nat) (h : i < swatchColors.length) :
    m.clickSwatch i = m.setSelectedColor (swatchColors.get ⟨i, h⟩) ∧
      (m.clickSwatch i).selectedColor = swatchColors.get ⟨i, h⟩ ∧
      ∀ r c : Nat, (m.clickSwatch i).colorAt r c = m.colorAt r c := by
  refine ⟨clickSwatch_eq_set m i h, ?_, ?_⟩
  · rw [clickSwatch_eq_set m i h]; rfl
  · intro r c
    rw [clickSwatch_eq_set m i h]
    exact colorAt_setSelectedColor m _ r c

/-- C5 witness: clicking swatch 0 on a mounted 1×1 grid selects "#F00" and
leaves the cell's color at its seed value. -/
theorem picker_isolation_witness :
    ((PropMatrix.mount [["#ABC"]]).clickSwatch 0).selectedColor = "#F00" ∧
      ((PropMatrix.mount [["#ABC"]]).clickSwatch 0).colorAt 0 0 =
        (PropMatrix.mount [["#ABC"]]).colorAt 0 0 :=
  ⟨(picker_isolation (PropMatrix.mount [["#ABC"]]) 0 (by decide)).2.1,
    (picker_isolation (PropMatrix.mount [["#ABC"]]) 0 (by decide)).2.2 0 0⟩

/-- C6: setter/getter round-trip on the selection.  For every token t and
every prior state, `setSelectedColor t` unconditionally overwrites the
selection (any string accepted, no validation or error path), and a
subsequent `getSelectedColor` returns t; the same overwrite law holds in the
prop-forwarded variant.  Since the state is universally quantified, this
covers calls made at any point after the consuming cells were mounted. -/
theorem set_get_selected_color_round_trip (a : AccMatrix) (p : PropMatrix) (t : ColorToken) :
    (a.setSelectedColor t).getSelectedColor = t ∧
      (p.setSelectedColor t).selectedColor = t :=
  ⟨rfl, rfl⟩

/-- C7: the grid projection is a pure row-major mapping.  `genMatrix` (and
`genRow`, which it calls per row) is a function of only the selection value
and the values array: it yields exactly one row element per array row and one
cell element per array entry, in order, with the row index and column index
as the elements' identity keys, and each cell's props are the grid entry and
the live selection. -/
theorem genMatrix_row_major_projection (sel : ColorToken) (values : List (List ColorToken))
    (vals : List ColorToken) (r c : Nat) :
    (genMatrix sel values).length = values.length ∧
      (genMatrix sel values)[r]? =
        (values[r]?).map (fun vs => { key := r, rowCells := genRow sel vs }) ∧
      (genRow sel vals).length = vals.length ∧
      (genRow sel vals)[c]? =
        (vals[c]?).map (fun v => { key := c, color := v, selectedColor := sel }) := by
  refine ⟨?_, ?_, ?_, ?_⟩
  · simp [genMatrix]
  · simp only [genMatrix, List.getElem?_map, List.getElem?_enum]
    cases values[r]? <;> rfl
  · simp [genRow]
  · simp only [genRow, List.getElem?_map, List.getElem?_enum]
    cases vals[c]? <;> rfl

/-- C8: cell-click idempotence.  In both variants, clicking the same cell
twice in direct succession (so the selection is unchanged in between) yields
exactly the state of the first click: the second click still runs the handler
(it is not suppressed — `clickCell` is applied again), but re-committing the
same selection changes nothing. -/
theorem cell_click_idempotent (m : PropMatrix) (a : AccMatrix) (r c : Nat) :
    (m.clickCell r c).clickCell r c = m.clickCell r c ∧
      (a.clickCell r c).clickCell r c = a.clickCell r c := by
  constructor
  · simp only [PropMatrix.clickCell]
    congr 1
    apply modifyAt_modifyAt
    intro row
    apply modifyAt_modifyAt
    intro cell
    rfl
  · simp only [AccMatrix.clickCell, AccMatrix.getSelectedColor]
    congr 1
    apply modifyAt_modifyAt
    intro row
    apply modifyAt_modifyAt
    intro v
    rfl

/-- C9: the initial selection is the constant "#FFF", so a cell clicked
before any picker click has ever occurred commits "#FFF". -/
theorem initial_selection_is_fff (values : List (List ColorToken)) (r c : Nat)
    (v : ColorToken) (h : gridEntry values r c = some v) :
    (PropMatrix.mount values).selectedColor = "#FFF" ∧
      ((PropMatrix.mount values).clickCell r c).colorAt r c = some "#FFF" := by
  refine ⟨rfl, ?_⟩
  rw [colorAt_clickCell_self]
  unfold gridEntry at h
  cases hr : values[r]? with
  | none => rw [hr] at h; simp at h
  | some row =>
    rw [hr] at h
    simp only [Option.some_bind] at h
    simp [PropMatrix.mount, List.getElem?_map, hr, h]

/-- C9 witness: clicking the cell at (0, 1) of a freshly mounted 1×2 grid. -/
theorem initial_selection_is_fff_witness :
    (PropMatrix.mount [["#111", "#222"]]).selectedColor = "#FFF" ∧
      ((PropMatrix.mount [["#111", "#222"]]).clickCell 0 1).colorAt 0 1 = some "#FFF" :=
  initial_selection_is_fff [["#111", "#222"]] 0 1 "#222" (by decide)

/-- After any sequence of user events, the selection stays in the set built
from the default and the palette. -/
theorem runEvents_selected_mem (evs : List Event) (m : PropMatrix)
    (hm : m.selectedColor = "#FFF" ∨ m.selectedColor ∈ swatchColors) :
    (runEvents m evs).selectedColor = "#FFF" ∨
      (runEvents m evs).selectedColor ∈ swatchColors := by
  induction evs generalizing m with
  | nil => exact hm
  | cons e es ih =>
    apply ih
    cases e with
    | cellClick r c => exact hm
    | pickerClick i =>
      right
      have h9 : (i : Nat) < swatchColors.length := i.isLt
      rw [show stepEvent m (Event.pickerClick i) = m.clickSwatch i from rfl,
        clickSwatch_eq_set m i h9]
      exact List.get_mem swatchColors i h9

/-- C10: the Picker's palette is exactly the hard-coded ordered sequence of 9
tokens, fixed for the whole run (`makeColorSwatches` is a constant), and
after any sequence of user events — swatch clicks on the nine rendered
swatches and cell clicks anywhere — the selection is either the default
"#FFF" or one of the 9 palette tokens. -/
theorem palette_fixed_and_selection_range (values : List (List ColorToken))
    (evs : List Event) :
    makeColorSwatches.map (fun sw => sw.backgroundColor) = swatchColors ∧
      makeColorSwatches.map (fun sw => sw.clickToken) =
        ["#F00", "#F80", "#FF0", "#0F0", "#00F", "#508", "#90D", "#FFF", "#000"] ∧
      ((runEvents (PropMatrix.mount values) evs).selectedColor = "#FFF" ∨
        (runEvents (PropMatrix.mount values) evs).selectedColor ∈ swatchColors) :=
  ⟨rfl, rfl, runEvents_selected_mem evs (PropMatrix.mount values) (Or.inl rfl)⟩

end Lab
